import Mathlib

/-!
Verification development for measure-syft.py, a performance-regression
harness for the syft CLI tool.  The script is embedded shallowly:

* durations are exact rationals (the script uses Python floats only as
  wall-clock second counts; all claims are about which values flow where,
  not about rounding of IEEE arithmetic);
* subprocess and filesystem outcomes are oracle functions supplied as
  arguments (an attempt either returns a duration or fails in one of the
  ways `run_syft_test` can fail);
* Python exceptions are an explicit error type; an uncaught exception is
  an `Except.error` / `some` error value threaded to the caller;
* the report file is its textual content, built by the same string
  concatenations the script performs.
-/

namespace MeasureSyft

/-- Python exceptions that the script can raise or observe.
`fileNotFound` is the `FileNotFoundError` raised by `run_syft_test` when the
built binary is absent; `calledProcessError` is `subprocess.CalledProcessError`
for a non-zero exit; `valueErrorEmptySeq` is the `ValueError` raised by
`min()` / `max()` on an empty sequence; `statisticsErrorEmptyData` is the
`statistics.StatisticsError` of `statistics.mean([])`; `valueErrorUnpack` is
the `ValueError` of unpacking a 1-element split into two names;
`unboundLocal` is the `UnboundLocalError` of reading a local variable that
was never assigned on the executed path. -/
inductive PyError where
  | fileNotFound
  | calledProcessError (code : Nat)
  | valueErrorEmptySeq
  | statisticsErrorEmptyData
  | valueErrorUnpack
  | unboundLocal
deriving Repr, DecidableEq

/-- The two ways a single timed run can fail (spec taxonomy BinaryMissing /
InvocationFailed): in `run_syft_test` these surface as `FileNotFoundError`
(line 126) and `subprocess.CalledProcessError` (the `check=True` call at
line 141-147). -/
inductive RunError where
  | binaryMissing
  | invocationFailed (exitCode : Nat)
deriving Repr, DecidableEq

/-- The statistics dictionary built by `run_performance_test` (keys
`min`/`max`/`avg`), with the optional `full_hash` key that `main` adds to a
per-commit result before `append_to_report` reads it. -/
structure Summary where
  min : ℚ
  max : ℚ
  avg : ℚ
  fullHash : Option String
deriving Repr, DecidableEq

/-- Python's `min` over a list: raises `ValueError` on the empty list,
otherwise folds binary `min` over the elements. -/
def pyMin : List ℚ → Except PyError ℚ
  | [] => .error PyError.valueErrorEmptySeq
  | t :: ts => .ok (ts.foldl min t)

/-- Python's `max` over a list: raises `ValueError` on the empty list. -/
def pyMax : List ℚ → Except PyError ℚ
  | [] => .error PyError.valueErrorEmptySeq
  | t :: ts => .ok (ts.foldl max t)

/-- `statistics.mean`: raises `StatisticsError` on empty data, otherwise the
arithmetic mean. -/
def pyMean : List ℚ → Except PyError ℚ
  | [] => .error PyError.statisticsErrorEmptyData
  | ts => .ok (ts.sum / (ts.length : ℚ))

/-- The reduction at the end of `run_performance_test` (lines 172-176): the
dictionary `{'min': min(times), 'max': max(times), 'avg': mean(times)}`,
with `min(times)` evaluated first, so an empty `times` raises the
`ValueError` of `min`. -/
def statsOf (times : List ℚ) : Except PyError Summary := do
  let mn ← pyMin times
  let mx ← pyMax times
  let av ← pyMean times
  pure { min := mn, max := mx, avg := av, fullHash := none }

/-- State mutated by the measurement loop of `run_performance_test`:
`current_run` is `CONFIG['current_run']`; `times` is the accumulated list of
successful durations.  `attempted` and `errorsLogged` record the observable
side effects of the loop (which run numbers an attempt was started for, and
which errors the `except` branch printed): they instrument the prints of
lines 134 and 169 so the theorems can speak about them. -/
structure AggState where
  current_run : Nat
  times : List ℚ
  attempted : List Nat
  errorsLogged : List RunError
deriving Repr, DecidableEq

/-- `CONFIG['current_run'] = 0` at line 161: the state at loop entry. -/
def initAggState : AggState :=
  { current_run := 0, times := [], attempted := [], errorsLogged := [] }

/-- The `for i in range(iterations)` loop of `run_performance_test`
(lines 163-170), iterating over the remaining indices.  Each iteration sets
`current_run := i + 1`, then calls `run_syft_test` (the oracle `attempt`,
indexed by run number): a success appends the duration to `times`; a
`CalledProcessError` is printed and skipped (`except ... continue`, lines
168-170); a `FileNotFoundError` is NOT caught by the `except
subprocess.CalledProcessError` clause, so it propagates and aborts the
loop. -/
def aggLoop (attempt : Nat → Except RunError ℚ) :
    List Nat → AggState → AggState × Option PyError
  | [], s => (s, none)
  | i :: rest, s =>
    let s1 : AggState :=
      { s with current_run := i + 1, attempted := s.attempted ++ [i + 1] }
    match attempt (i + 1) with
    | .ok t => aggLoop attempt rest { s1 with times := s1.times ++ [t] }
    | .error (RunError.invocationFailed c) =>
        aggLoop attempt rest
          { s1 with errorsLogged := s1.errorsLogged ++ [RunError.invocationFailed c] }
    | .error RunError.binaryMissing => (s1, some PyError.fileNotFound)

/-- `run_performance_test(version)` (lines 158-176): run the loop, then
reduce the collected `times`.  An exception escaping the loop propagates to
the caller; otherwise the statistics dictionary is built (raising the
`min()` ValueError if no run succeeded). -/
def run_performance_test (attempt : Nat → Except RunError ℚ) (iterations : Nat) :
    Except PyError Summary :=
  match aggLoop attempt (List.range iterations) initAggState with
  | (_, some e) => .error e
  | (s, none) => statsOf s.times

/-- Decidable equality for `Except`, so concrete program results can be
checked by `decide`. -/
instance {ε α : Type} [DecidableEq ε] [DecidableEq α] : DecidableEq (Except ε α) :=
  fun x y =>
    match x, y with
    | Except.ok a, Except.ok b =>
        if h : a = b then isTrue (by rw [h]) else isFalse (fun hh => h (Except.ok.inj hh))
    | Except.ok _, Except.error _ => isFalse (fun hh => Except.noConfusion hh)
    | Except.error _, Except.ok _ => isFalse (fun hh => Except.noConfusion hh)
    | Except.error e, Except.error f =>
        if h : e = f then isTrue (by rw [h]) else isFalse (fun hh => h (Except.error.inj hh))

/-- The duration of an attempt outcome, when it succeeded. -/
def okTime : Except RunError ℚ → Option ℚ
  | .ok t => some t
  | .error _ => none

/-- The error of an attempt outcome, when it failed. -/
def errOf : Except RunError ℚ → Option RunError
  | .ok _ => none
  | .error e => some e

/-- The durations of exactly the successful runs among runs `1..n`. -/
def successfulTimes (attempt : Nat → Except RunError ℚ) (n : Nat) : List ℚ :=
  (List.range n).filterMap (fun i => okTime (attempt (i + 1)))

/-- Sanity check of the embedding on scenario C of the spec: five runs of
1, 2, 3, 4, 5 seconds reduce to min 1, max 5, mean 3. -/
lemma run_performance_test_scenario_c :
    run_performance_test (fun i => Except.ok ((i : ℚ))) 5 =
      Except.ok { min := 1, max := 5, avg := 3, fullHash := none } := by
  simp [run_performance_test, aggLoop, initAggState, statsOf, pyMin, pyMax, pyMean,
    List.range_succ, min_def, max_def]
  norm_num
  rfl

/-! ## Run executor: the timed window of `run_syft_test` (lines 121-152) -/

/-- The successive operations of `run_syft_test`, in source order:
check the binary exists (line 125), read the current commit id (line 129),
print the start message (line 134), take `start_time` (line 136), generate
the log path (line 139), create/open the log file (line 140), run the
binary (lines 141-147), take `end_time` (line 149), print the end message
(line 150). -/
inductive RunStep where
  | checkBinary
  | readCommitId
  | printStart
  | clockStart
  | genLogPath
  | openLogFile
  | invokeBinary
  | clockEnd
  | printEnd
deriving Repr, DecidableEq

/-- The operation sequence of `run_syft_test` as written in the source. -/
def run_syft_test_steps : List RunStep :=
  [RunStep.checkBinary, RunStep.readCommitId, RunStep.printStart,
   RunStep.clockStart, RunStep.genLogPath, RunStep.openLogFile,
   RunStep.invokeBinary, RunStep.clockEnd, RunStep.printEnd]

/-- Wall-clock semantics over a step trace: each non-clock step consumes
`cost step` seconds; `clockStart` / `clockEnd` are the two
`datetime.datetime.now()` reads, and the accumulator collects the time that
elapses between them (the value `(end_time - start_time).total_seconds()`
returned at line 152). -/
def timedCost (cost : RunStep → ℚ) : List RunStep → Bool → ℚ → ℚ
  | [], _, acc => acc
  | st :: rest, timing, acc =>
    match st with
    | RunStep.clockStart => timedCost cost rest true acc
    | RunStep.clockEnd => timedCost cost rest false acc
    | _ => timedCost cost rest timing (if timing then acc + cost st else acc)

/-- The elapsed duration `run_syft_test` returns, for a given cost of each
of its operations. -/
def run_syft_test_elapsed (cost : RunStep → ℚ) : ℚ :=
  timedCost cost run_syft_test_steps false 0

/-! ## Report writer: `append_to_report` (lines 178-204) -/

/-- Python's `f"{x:.2f}"` on a non-negative duration, modelled exactly on
rationals: the value rounded to integer hundredths, printed as the integer
part, a dot, and two digits. -/
def fmt2 (q : ℚ) : String :=
  let h : Int := Int.floor (q * 100 + 1 / 2)
  let ip : Int := h / 100
  let fp : Nat := (h % 100).toNat
  toString ip ++ "." ++ (if fp < 10 then "0" else "") ++ toString fp

/-- Python string interpolation of an optional value: `None` prints as the
text `None`. -/
def pyStrOpt : Option String → String
  | some s => s
  | none => "None"

/-- The single table row written by `append_to_report` (lines 199-204): if
the results dictionary carries `full_hash`, the commit cell is a markdown
link `[version](https://github.com/anchore/syft/commit/full_hash)` and the
first cell is the commit description; otherwise the first cell is the
version label and the commit cell is the placeholder `-`. -/
def renderRow (version : String) (results : Summary) (commit_desc : Option String) :
    String :=
  match results.fullHash with
  | some full_hash =>
      "| " ++ pyStrOpt commit_desc ++ " | " ++
        ("[" ++ version ++ "](https://github.com/anchore/syft/commit/" ++ full_hash ++ ")") ++
        " | " ++ fmt2 results.min ++ " | " ++ fmt2 results.max ++ " | " ++
        fmt2 results.avg ++ " |\n"
  | none =>
      "| " ++ version ++ " | - | " ++ fmt2 results.min ++ " | " ++ fmt2 results.max ++
        " | " ++ fmt2 results.avg ++ " |\n"

/-- Insertion into a key-sorted association list (`sorted(syft_vars.items())`,
line 189; environment dictionaries have distinct keys, so sorting by key
matches Python's tuple sort). -/
def insertSorted (p : String × String) : List (String × String) → List (String × String)
  | [] => [p]
  | q :: qs => if p.1 < q.1 then p :: q :: qs else q :: insertSorted p qs

/-- Sort the captured environment variables by name. -/
def sortPairs : List (String × String) → List (String × String)
  | [] => []
  | p :: ps => insertSorted p (sortPairs ps)

/-- The header lines built by `append_to_report` when `is_first` (lines
181-196): title, date, container, the sorted `SYFT_`-prefixed environment
variables, then the table header and separator. -/
def headerLines (date container : String) (envVars : List (String × String)) :
    List String :=
  ["# Syft Performance Test Results\n",
   "Date: " ++ date,
   "Container: " ++ container,
   "Environment Variables:"]
  ++ (sortPairs envVars).map (fun p => "- " ++ p.1 ++ "=" ++ p.2)
  ++ ["\n## Results\n",
      "| Version/Description | Commit | Min (s) | Max (s) | Avg (s) |",
      "|-------------------|--------|---------|---------|---------|"]

/-- `report_path.write_text('\n'.join(header) + '\n')` (line 197): the full
header text the destructive first write stores. -/
def headerText (date container : String) (envVars : List (String × String)) : String :=
  String.intercalate "\n" (headerLines date container envVars) ++ "\n"

/-- `append_to_report(report_path, version, results, is_first, commit_desc)`
(lines 178-204) acting on the report file content: when `is_first`, the
header text destructively replaces whatever the file held (`write_text`);
then one row is appended (`open(..., 'a')`). -/
def append_to_report (date container : String) (envVars : List (String × String))
    (file : String) (version : String) (results : Summary)
    (is_first : Bool) (commit_desc : Option String) : String :=
  (if is_first then headerText date container envVars else file) ++
    renderRow version results commit_desc

/-! ## Revision source: the parsing loop of `get_commits_after_tag`
(lines 93-101) -/

/-- Python's `line.split(' ', 1)` on a character list: cut at the first
space; `none` when the line holds no space at all (in which case unpacking
into `full_hash, subject` raises `ValueError`). -/
def splitFirstAux : List Char → Option (List Char × List Char)
  | [] => none
  | c :: cs =>
    if c = ' ' then some ([], cs)
    else (splitFirstAux cs).map (fun p => (c :: p.1, p.2))

/-- `line.split(' ', 1)` on strings. -/
def splitFirst (line : String) : Option (String × String) :=
  match splitFirstAux line.data with
  | none => none
  | some (a, b) => some (⟨a⟩, ⟨b⟩)

/-- The parsing loop of `get_commits_after_tag` (lines 94-99): for each
non-empty line, split off the full hash at the first space, keep the rest as
the subject, and take the first seven characters as the short hash; a line
with no space raises the unpacking `ValueError`. -/
def parse_commit_lines : List String → Except PyError (List (String × String × String))
  | [] => .ok []
  | line :: rest =>
    if line = "" then parse_commit_lines rest
    else
      match splitFirst line with
      | none => .error PyError.valueErrorUnpack
      | some (full, subject) =>
          match parse_commit_lines rest with
          | .error e => .error e
          | .ok cs => .ok ((full.take 7, full, subject) :: cs)

/-! ## Campaign driver: the history branch of `main` (lines 239-253) -/

/-- The per-commit loop of history mode (lines 246-253).  For each commit:
checkout (line 248, using `CONFIG['build_dir']`), then `make build` with
`cwd=build_path` (line 250) — but in this branch of `main` the local
variable `build_path` is only ever assigned inside the `if args.pr:` branch
(line 225), so it is passed here as `none` and reading it raises
`UnboundLocalError`; then measure, attach `full_hash` to the results, and
append a row described by the commit subject. -/
def historyLoop (date container : String) (envVars : List (String × String))
    (iterations : Nat) (attempt : String → Nat → Except RunError ℚ)
    (checkout makeBuild : String → Except PyError Unit)
    (buildPath : Option String) (file : String) :
    List (String × String × String) → String × Option PyError
  | [] => (file, none)
  | (short, full, subject) :: rest =>
    match checkout full with
    | .error e => (file, some e)
    | .ok _ =>
      match buildPath with
      | none => (file, some PyError.unboundLocal)
      | some bp =>
        match makeBuild bp with
        | .error e => (file, some e)
        | .ok _ =>
          match run_performance_test (attempt short) iterations with
          | .error e => (file, some e)
          | .ok res =>
            historyLoop date container envVars iterations attempt checkout makeBuild
              buildPath
              (append_to_report date container envVars file short
                { res with fullHash := some full } false (some subject))
              rest

/-- History mode of `main` (the `else` branch, lines 239-253): measure the
latest release, write the header plus the baseline row, then walk the
commits after the tag.  `attempt v i` is the outcome of run `i` of
`run_syft_test` while revision `v` is checked out; `checkout` and
`makeBuild` are the git/make subprocesses.  The local `build_path` is never
assigned on this path, so the loop receives `none` for it. -/
def mainHistory (date container : String) (envVars : List (String × String))
    (iterations : Nat) (attempt : String → Nat → Except RunError ℚ)
    (checkout makeBuild : String → Except PyError Unit)
    (version : String) (commits : List (String × String × String)) :
    String × Option PyError :=
  match run_performance_test (attempt version) iterations with
  | .error e => ("", some e)
  | .ok results =>
    historyLoop date container envVars iterations attempt checkout makeBuild
      none
      (append_to_report date container envVars "" version results true none)
      commits

/-! ## Lemmas about the measurement loop -/

/-- When no attempt in the remaining iteration list fails with a missing
binary, the loop finishes normally: every listed run number is attempted in
order, the successful durations are collected in order, and the
`CalledProcessError`s are exactly the ones logged by the `except` branch. -/
lemma aggLoop_no_missing (attempt : Nat → Except RunError ℚ) (l : List Nat) :
    ∀ s : AggState,
    (∀ i ∈ l, attempt (i + 1) ≠ Except.error RunError.binaryMissing) →
    (aggLoop attempt l s).2 = none ∧
    (aggLoop attempt l s).1.times = s.times ++ l.filterMap (fun i => okTime (attempt (i + 1))) ∧
    (aggLoop attempt l s).1.attempted = s.attempted ++ l.map (fun i => i + 1) ∧
    (aggLoop attempt l s).1.errorsLogged =
      s.errorsLogged ++ l.filterMap (fun i => errOf (attempt (i + 1))) := by
  induction l with
  | nil => intro s _; simp [aggLoop]
  | cons i l ih =>
    intro s h
    have hi : attempt (i + 1) ≠ Except.error RunError.binaryMissing :=
      h i (List.mem_cons_self i l)
    have hrest : ∀ j ∈ l, attempt (j + 1) ≠ Except.error RunError.binaryMissing :=
      fun j hj => h j (List.mem_cons_of_mem i hj)
    cases hatt : attempt (i + 1) with
    | ok t =>
      rcases ih { current_run := i + 1, times := s.times ++ [t],
                  attempted := s.attempted ++ [i + 1],
                  errorsLogged := s.errorsLogged } hrest with ⟨h1, h2, h3, h4⟩
      refine ⟨?_, ?_, ?_, ?_⟩ <;>
        simp [aggLoop, hatt, h1, h2, h3, h4, okTime, errOf, List.filterMap_cons]
    | error e =>
      cases e with
      | binaryMissing => exact absurd hatt hi
      | invocationFailed c =>
        rcases ih { current_run := i + 1, times := s.times,
                    attempted := s.attempted ++ [i + 1],
                    errorsLogged := s.errorsLogged ++ [RunError.invocationFailed c] }
            hrest with ⟨h1, h2, h3, h4⟩
        refine ⟨?_, ?_, ?_, ?_⟩ <;>
          simp [aggLoop, hatt, h1, h2, h3, h4, okTime, errOf, List.filterMap_cons]

/-- All-successful attempts collect exactly the durations, in order. -/
lemma filterMap_okTime_ok (g : Nat → ℚ) (l : List Nat) :
    l.filterMap (fun i => okTime (Except.ok (g i))) = l.map g :=
  congrFun (List.filterMap_eq_map g) l

/-! ## Order lemmas about Python's fold-based min/max and the mean -/

/-- The running minimum never exceeds its seed. -/
lemma foldl_min_le_init (b : ℚ) (ts : List ℚ) : ts.foldl min b ≤ b := by
  induction ts generalizing b with
  | nil => exact le_refl b
  | cons a ts ih => exact le_trans (ih (min b a)) (min_le_left b a)

/-- The running minimum is a lower bound of the list. -/
lemma foldl_min_le_mem (b x : ℚ) (ts : List ℚ) (hx : x ∈ ts) : ts.foldl min b ≤ x := by
  induction hx generalizing b with
  | head as => exact le_trans (foldl_min_le_init (min b x) as) (min_le_right b x)
  | tail c hm ih => exact ih (min b c)

/-- The running maximum is at least its seed. -/
lemma init_le_foldl_max (b : ℚ) (ts : List ℚ) : b ≤ ts.foldl max b := by
  induction ts generalizing b with
  | nil => exact le_refl b
  | cons a ts ih => exact le_trans (le_max_left b a) (ih (max b a))

/-- The running maximum is an upper bound of the list. -/
lemma mem_le_foldl_max (b x : ℚ) (ts : List ℚ) (hx : x ∈ ts) : x ≤ ts.foldl max b := by
  induction hx generalizing b with
  | head as => exact le_trans (le_max_right b x) (init_le_foldl_max (max b x) as)
  | tail c hm ih => exact ih (max b c)

/-- A lower bound of every element bounds the sum from below. -/
lemma length_mul_le_sum (m : ℚ) (l : List ℚ) (h : ∀ x ∈ l, m ≤ x) :
    (l.length : ℚ) * m ≤ l.sum := by
  induction l with
  | nil => simp
  | cons a l ih =>
    have h1 : m ≤ a := h a (List.mem_cons_self a l)
    have h2 := ih (fun x hx => h x (List.mem_cons_of_mem a hx))
    simp only [List.length_cons, List.sum_cons]
    push_cast
    nlinarith

/-- An upper bound of every element bounds the sum from above. -/
lemma sum_le_length_mul (m : ℚ) (l : List ℚ) (h : ∀ x ∈ l, x ≤ m) :
    l.sum ≤ (l.length : ℚ) * m := by
  induction l with
  | nil => simp
  | cons a l ih =>
    have h1 : a ≤ m := h a (List.mem_cons_self a l)
    have h2 := ih (fun x hx => h x (List.mem_cons_of_mem a hx))
    simp only [List.length_cons, List.sum_cons]
    push_cast
    nlinarith

/-- The fold-based minimum of a non-empty list is at most the mean. -/
lemma min_le_avg (t : ℚ) (ts : List ℚ) :
    ts.foldl min t ≤ (t :: ts).sum / ((t :: ts).length : ℚ) := by
  have hpos : (0 : ℚ) < ((t :: ts).length : ℚ) := by
    have : 0 < (t :: ts).length := List.length_pos_of_ne_nil (by simp)
    exact_mod_cast this
  rw [le_div_iff₀ hpos]
  have hall : ∀ x ∈ t :: ts, ts.foldl min t ≤ x := by
    intro x hx
    rcases List.mem_cons.mp hx with h | h
    · exact h ▸ foldl_min_le_init t ts
    · exact foldl_min_le_mem t x ts h
  have := length_mul_le_sum (ts.foldl min t) (t :: ts) hall
  nlinarith

/-- The mean of a non-empty list is at most the fold-based maximum. -/
lemma avg_le_max (t : ℚ) (ts : List ℚ) :
    (t :: ts).sum / ((t :: ts).length : ℚ) ≤ ts.foldl max t := by
  have hpos : (0 : ℚ) < ((t :: ts).length : ℚ) := by
    have : 0 < (t :: ts).length := List.length_pos_of_ne_nil (by simp)
    exact_mod_cast this
  rw [div_le_iff₀ hpos]
  have hall : ∀ x ∈ t :: ts, x ≤ ts.foldl max t := by
    intro x hx
    rcases List.mem_cons.mp hx with h | h
    · exact h ▸ init_le_foldl_max t ts
    · exact mem_le_foldl_max t x ts h
  have := sum_le_length_mul (ts.foldl max t) (t :: ts) hall
  nlinarith

/-! ## Claim theorems about the measurement aggregator -/

/-- Claim C1: the claim asks for a `NoSuccessfulRuns` condition when zero
runs succeed, instead of a downstream statistics/arithmetic error.  The code
has no such condition: with five runs all exiting non-zero, the collected
`times` list is empty and the reduction raises the `ValueError` of `min()`
over an empty sequence — exactly the downstream arithmetic error the claim
rules out. -/
theorem all_runs_failed_raises_value_error :
    run_performance_test (fun _ => Except.error (RunError.invocationFailed 1)) 5 =
      Except.error PyError.valueErrorEmptySeq := by decide

/-- A concrete run oracle: run 2 exits non-zero (exit status 3); every other
run succeeds in two seconds. -/
def mixedAttempt : Nat → Except RunError ℚ :=
  fun i => if i = 2 then Except.error (RunError.invocationFailed 3) else Except.ok 2

/-- A concrete run oracle whose first run already finds the binary missing. -/
def missingFirstAttempt : Nat → Except RunError ℚ :=
  fun i => if i = 1 then Except.error RunError.binaryMissing else Except.ok 2

/-- Claim C2 counterexample: a `BinaryMissing` failure is not skipped.  With
three configured runs and the binary missing at run 1, the loop aborts with
the propagated `FileNotFoundError`: only run 1 is ever attempted, so the
failure does abort the remaining runs (and, propagating out of
`run_performance_test`, the campaign). -/
theorem binary_missing_aborts_runs :
    (aggLoop missingFirstAttempt (List.range 3) initAggState).2 =
      some PyError.fileNotFound ∧
    (aggLoop missingFirstAttempt (List.range 3) initAggState).1.attempted = [1] := by
  decide

/-- Claim C2 (amended): a single-run `InvocationFailed` failure is logged and
skipped and aborts nothing — when no run fails with a missing binary, the
loop finishes without an exception, attempts every configured run number in
order, logs exactly the per-run errors, and collects exactly the successful
durations.  (A `BinaryMissing` failure is not caught by the
`except subprocess.CalledProcessError` clause and instead aborts.) -/
theorem invocation_failures_skipped (attempt : Nat → Except RunError ℚ) (n : Nat)
    (hnm : ∀ i, attempt i ≠ Except.error RunError.binaryMissing) :
    (aggLoop attempt (List.range n) initAggState).2 = none ∧
    (aggLoop attempt (List.range n) initAggState).1.attempted =
      (List.range n).map (fun i => i + 1) ∧
    (aggLoop attempt (List.range n) initAggState).1.errorsLogged =
      (List.range n).filterMap (fun i => errOf (attempt (i + 1))) ∧
    (aggLoop attempt (List.range n) initAggState).1.times =
      (List.range n).filterMap (fun i => okTime (attempt (i + 1))) := by
  rcases aggLoop_no_missing attempt (List.range n) initAggState
      (fun i _ => hnm (i + 1)) with ⟨h1, h2, h3, h4⟩
  exact ⟨h1, by simpa [initAggState] using h3, by simpa [initAggState] using h4,
    by simpa [initAggState] using h2⟩

/-- Witness for the amended C2 theorem at a concrete oracle (three runs, the
second exiting non-zero). -/
theorem invocation_failures_skipped_witness :
    (aggLoop mixedAttempt (List.range 3) initAggState).2 = none ∧
    (aggLoop mixedAttempt (List.range 3) initAggState).1.attempted =
      (List.range 3).map (fun i => i + 1) ∧
    (aggLoop mixedAttempt (List.range 3) initAggState).1.errorsLogged =
      (List.range 3).filterMap (fun i => errOf (mixedAttempt (i + 1))) ∧
    (aggLoop mixedAttempt (List.range 3) initAggState).1.times =
      (List.range 3).filterMap (fun i => okTime (mixedAttempt (i + 1))) :=
  invocation_failures_skipped mixedAttempt 3
    (by intro i; by_cases h : i = 2 <;> simp [mixedAttempt, h])

/-- Claim C9 counterexample: with two configured runs and the binary missing
at run 1, the loop is aborted by the uncaught `FileNotFoundError`, so the run
counter does not take the values 1 and 2 — the aggregator does not perform
the configured number of attempts when a run fails this way. -/
theorem run_counter_aborted_counterexample :
    (aggLoop missingFirstAttempt (List.range 2) initAggState).1.attempted ≠
      (List.range 2).map (fun i => i + 1) := by decide

/-- Claim C9 (amended): the run counter is reset to 0 at loop entry and,
provided no attempt fails with a missing binary, the attempts use exactly
the consecutive run numbers 1 through N, one per configured iteration — a
failed (non-zero exit) attempt consumes its slot and is not retried. -/
theorem run_counter_sequence (attempt : Nat → Except RunError ℚ) (n : Nat)
    (hnm : ∀ i, attempt i ≠ Except.error RunError.binaryMissing) :
    initAggState.current_run = 0 ∧
    (aggLoop attempt (List.range n) initAggState).1.attempted =
      (List.range n).map (fun i => i + 1) ∧
    ((aggLoop attempt (List.range n) initAggState).1.attempted).length = n := by
  rcases aggLoop_no_missing attempt (List.range n) initAggState
      (fun i _ => hnm (i + 1)) with ⟨h1, h2, h3, h4⟩
  have ha : (aggLoop attempt (List.range n) initAggState).1.attempted =
      (List.range n).map (fun i => i + 1) := by simpa [initAggState] using h3
  exact ⟨rfl, ha, by rw [ha]; simp⟩

/-- Witness for the amended C9 theorem at a concrete oracle. -/
theorem run_counter_sequence_witness :
    initAggState.current_run = 0 ∧
    (aggLoop mixedAttempt (List.range 4) initAggState).1.attempted =
      (List.range 4).map (fun i => i + 1) ∧
    ((aggLoop mixedAttempt (List.range 4) initAggState).1.attempted).length = 4 :=
  run_counter_sequence mixedAttempt 4
    (by intro i; by_cases h : i = 2 <;> simp [mixedAttempt, h])

/-- A concrete run oracle: run 1 succeeds in one second, then the binary
disappears before run 2. -/
def vanishingAttempt : Nat → Except RunError ℚ :=
  fun i => if i = 1 then Except.ok 1 else Except.error RunError.binaryMissing

/-- Claim C6 counterexample: with two configured runs, run 1 succeeding and
run 2 failing with a missing binary, one of the two runs succeeded and yet no
summary over that successful duration is produced — the uncaught
`FileNotFoundError` propagates instead. -/
theorem partial_success_binary_missing_no_summary :
    vanishingAttempt 1 = Except.ok 1 ∧
    run_performance_test vanishingAttempt 2 = Except.error PyError.fileNotFound := by
  decide

/-- Claim C6 (amended): when the failed runs all fail by exiting non-zero
(`InvocationFailed`), the reduction is computed over exactly the successful
durations, in order, and failed runs contribute nothing; when at least one
run succeeded, a summary is produced.  (A `BinaryMissing` failure instead
aborts the measurement with no summary.) -/
theorem stats_over_successful_times (attempt : Nat → Except RunError ℚ) (n : Nat)
    (hnm : ∀ i, attempt i ≠ Except.error RunError.binaryMissing) :
    run_performance_test attempt n = statsOf (successfulTimes attempt n) ∧
    (successfulTimes attempt n ≠ [] →
      ∃ s : Summary, run_performance_test attempt n = Except.ok s) := by
  rcases hagg : aggLoop attempt (List.range n) initAggState with ⟨st, exc⟩
  rcases aggLoop_no_missing attempt (List.range n) initAggState
      (fun i _ => hnm (i + 1)) with ⟨h1, h2, h3, h4⟩
  rw [hagg] at h1 h2
  have hexc : exc = none := h1
  subst hexc
  have htimes : st.times = successfulTimes attempt n := by
    simpa [initAggState, successfulTimes] using h2
  constructor
  · unfold run_performance_test
    rw [hagg]
    show statsOf st.times = _
    rw [htimes]
  · intro hne
    rw [← htimes] at hne
    obtain ⟨t, ts, hts⟩ := List.exists_cons_of_ne_nil hne
    refine ⟨{ min := ts.foldl min t, max := ts.foldl max t,
              avg := (t :: ts).sum / ((t :: ts).length : ℚ), fullHash := none }, ?_⟩
    unfold run_performance_test
    rw [hagg]
    show statsOf st.times = _
    rw [hts]
    rfl

/-- Witness for the amended C6 theorem at a concrete oracle (three runs, the
second exiting non-zero, so statistics are over the two successful runs). -/
theorem stats_over_successful_times_witness :
    run_performance_test mixedAttempt 3 = statsOf (successfulTimes mixedAttempt 3) ∧
    (∃ s : Summary, run_performance_test mixedAttempt 3 = Except.ok s) := by
  have hnm : ∀ i, mixedAttempt i ≠ Except.error RunError.binaryMissing := by
    intro i; by_cases h : i = 2 <;> simp [mixedAttempt, h]
  exact ⟨(stats_over_successful_times mixedAttempt 3 hnm).1,
    (stats_over_successful_times mixedAttempt 3 hnm).2 (by decide)⟩

/-- Claim C5: when all N runs succeed, the summary satisfies
min ≤ mean ≤ max and the mean is the arithmetic average of exactly the N
captured durations. -/
theorem measure_all_success (f : Nat → ℚ) (n : Nat) (hn : 0 < n) :
    ∃ s : Summary,
      run_performance_test (fun i => Except.ok (f i)) n = Except.ok s ∧
      s.min ≤ s.avg ∧ s.avg ≤ s.max ∧
      s.avg = ((List.range n).map (fun i => f (i + 1))).sum / (n : ℚ) := by
  rcases hagg : aggLoop (fun i => Except.ok (f i)) (List.range n) initAggState
    with ⟨st, exc⟩
  rcases aggLoop_no_missing (fun i => Except.ok (f i)) (List.range n) initAggState
      (fun i _ h => Except.noConfusion h) with ⟨h1, h2, h3, h4⟩
  rw [hagg] at h1 h2
  have hexc : exc = none := h1
  subst hexc
  have htimes : st.times = (List.range n).map (fun i => f (i + 1)) := by
    have h5 := h2
    simp only [initAggState, List.nil_append] at h5
    rw [h5]
    exact filterMap_okTime_ok (fun i => f (i + 1)) (List.range n)
  have hne : st.times ≠ [] := by
    rw [htimes]
    simp only [ne_eq, List.map_eq_nil_iff, List.range_eq_nil]
    omega
  obtain ⟨t, ts, hts⟩ := List.exists_cons_of_ne_nil hne
  have hmap : t :: ts = (List.range n).map (fun i => f (i + 1)) := by
    rw [← hts, htimes]
  refine ⟨{ min := ts.foldl min t, max := ts.foldl max t,
            avg := (t :: ts).sum / ((t :: ts).length : ℚ), fullHash := none },
    ?_, ?_, ?_, ?_⟩
  · unfold run_performance_test
    rw [hagg]
    show statsOf st.times = _
    rw [hts]
    rfl
  · exact min_le_avg t ts
  · exact avg_le_max t ts
  · show (t :: ts).sum / ((t :: ts).length : ℚ) = _
    rw [hmap]
    simp

/-- Witness for C5 at runCount 5 with durations 1, 2, 3, 4, 5 seconds
(scenario C of the spec). -/
theorem measure_all_success_witness :
    ∃ s : Summary,
      run_performance_test (fun i => Except.ok ((i : ℚ))) 5 = Except.ok s ∧
      s.min ≤ s.avg ∧ s.avg ≤ s.max ∧
      s.avg = ((List.range 5).map (fun i => ((i + 1 : Nat) : ℚ))).sum / ((5 : Nat) : ℚ) :=
  measure_all_success (fun i => ((i : ℚ))) 5 (by decide)

/-! ## Claim theorems about the run executor's timed window -/

/-- A concrete cost assignment: log-path generation and log-file creation
cost one second each, the binary invocation two seconds, everything else is
instantaneous. -/
def c4Cost : RunStep → ℚ
  | RunStep.genLogPath => 1
  | RunStep.openLogFile => 1
  | RunStep.invokeBinary => 2
  | _ => 0

/-- Claim C4 counterexample: under `c4Cost` the elapsed value
`run_syft_test` returns is 4, not the 2 seconds of the invocation alone —
the measured wall-clock interval is not strictly bracketing the invocation,
because `start_time` (line 136) is read before the log path is generated and
the log file created (lines 139-140). -/
theorem timed_window_counterexample :
    run_syft_test_elapsed c4Cost ≠ c4Cost RunStep.invokeBinary := by
  simp only [run_syft_test_elapsed, run_syft_test_steps, timedCost, c4Cost]
  norm_num

/-- Claim C4 (amended): for every cost assignment, the elapsed duration
returned by `run_syft_test` is the time of log-path generation plus log-file
creation plus the invocation: the log-file setup happens inside the timed
window, which starts just before it and ends right after the invocation. -/
theorem timed_window_includes_log_setup (cost : RunStep → ℚ) :
    run_syft_test_elapsed cost =
      cost RunStep.genLogPath + cost RunStep.openLogFile + cost RunStep.invokeBinary := by
  simp [run_syft_test_elapsed, run_syft_test_steps, timedCost]

/-! ## Claim theorems about the report writer -/

/-- Claim C7: a row whose summary carries a full identifier renders the
commit cell as the markdown link to that identifier (so the row text
contains the link, which contains the identifier); a row whose summary
carries none renders in the plain form, with the `-` placeholder in the
commit cell right after the version label. -/
theorem row_rendering (v : String) (r : Summary) (d : Option String) :
    (∀ fh, r.fullHash = some fh →
      ∃ a b, renderRow v r d =
        a ++ ("[" ++ v ++ "](https://github.com/anchore/syft/commit/" ++ fh ++ ")") ++ b) ∧
    (r.fullHash = none →
      ∃ b, renderRow v r d = "| " ++ v ++ " | - | " ++ b) := by
  constructor
  · intro fh hfh
    refine ⟨"| " ++ pyStrOpt d ++ " | ",
      " | " ++ fmt2 r.min ++ " | " ++ fmt2 r.max ++ " | " ++ fmt2 r.avg ++ " |\n", ?_⟩
    simp only [renderRow, hfh, String.append_assoc]
  · intro hfh
    refine ⟨fmt2 r.min ++ " | " ++ fmt2 r.max ++ " | " ++ fmt2 r.avg ++ " |\n", ?_⟩
    simp only [renderRow, hfh, String.append_assoc]

/-- A concrete summary carrying a full identifier. -/
def linkedSummary : Summary :=
  { min := 1, max := 2, avg := 2, fullHash := some "0123456789abcdef0123456789abcdef01234567" }

/-- A concrete summary carrying no identifier. -/
def plainSummary : Summary :=
  { min := 1, max := 2, avg := 2, fullHash := none }

/-- Witness for C7 at two concrete rows, one of each rendering. -/
theorem row_rendering_witness :
    (∃ a b, renderRow "0123456" linkedSummary (some "a commit subject") =
      a ++ ("[" ++ "0123456" ++ "](https://github.com/anchore/syft/commit/" ++
        "0123456789abcdef0123456789abcdef01234567" ++ ")") ++ b) ∧
    (∃ b, renderRow "v1.2.0" plainSummary none = "| " ++ "v1.2.0" ++ " | - | " ++ b) :=
  ⟨(row_rendering "0123456" linkedSummary (some "a commit subject")).1
      "0123456789abcdef0123456789abcdef01234567" rfl,
   (row_rendering "v1.2.0" plainSummary none).2 rfl⟩

/-- Claim C8: the destructive header write (`is_first = true`) followed by a
plain append produces exactly the header text followed by the two rows in
call order, whatever the file held before; and every non-first call is
append-only — it extends the existing content by exactly one row. -/
theorem report_header_then_rows (init date container : String)
    (env : List (String × String)) (v1 v2 : String) (r1 r2 : Summary)
    (d1 d2 : Option String) :
    append_to_report date container env
        (append_to_report date container env init v1 r1 true d1) v2 r2 false d2 =
      headerText date container env ++ renderRow v1 r1 d1 ++ renderRow v2 r2 d2 ∧
    (∀ file v r d, append_to_report date container env file v r false d =
      file ++ renderRow v r d) := by
  exact ⟨rfl, fun file v r d => rfl⟩

/-! ## Claim theorems about history enumeration parsing -/

/-- Splitting at the first space recovers a space-free head and the tail. -/
lemma splitFirstAux_append (h : List Char) (s : List Char) (hh : ' ' ∉ h) :
    splitFirstAux (h ++ ' ' :: s) = some (h, s) := by
  induction h with
  | nil => simp [splitFirstAux]
  | cons c cs ih =>
    have hc : ¬c = ' ' := fun e => hh (e ▸ List.mem_cons_self c cs)
    simp [splitFirstAux, hc, ih (fun m => hh (List.mem_cons_of_mem c m))]

/-- `line.split(' ', 1)` on `hash ++ " " ++ subject` with a space-free hash
yields the hash and the subject. -/
lemma splitFirst_hash_subject (h s : String) (hh : ' ' ∉ h.data) :
    splitFirst (h ++ " " ++ s) = some (h, s) := by
  have hd : (h ++ " " ++ s).data = h.data ++ ' ' :: s.data := by
    show (h.data ++ [' ']) ++ s.data = h.data ++ ' ' :: s.data
    rw [List.append_assoc]
    rfl
  unfold splitFirst
  rw [hd, splitFirstAux_append h.data s.data hh]

/-- A line holding a hash, a space and a subject is non-empty. -/
lemma hash_line_ne_empty (h s : String) : h ++ " " ++ s ≠ "" := by
  intro e
  have hlen := congrArg (fun t : String => t.data.length) e
  have hd : (h ++ " " ++ s).data = (h.data ++ [' ']) ++ s.data := rfl
  simp [hd] at hlen

/-- Claim C10: for every list of non-empty commit lines of the form
`full-hash SPACE subject` (the hash containing no space), the parsing loop of
`get_commits_after_tag` produces, in order, one entry per line whose short
identifier is exactly the first seven characters of the full identifier,
whose full identifier is the text before the first space, and whose
description is the remainder of the line after that space. -/
theorem commit_parse_correct (entries : List (String × String))
    (hh : ∀ p ∈ entries, ' ' ∉ p.1.data) :
    parse_commit_lines (entries.map (fun p => p.1 ++ " " ++ p.2)) =
      Except.ok (entries.map (fun p => (p.1.take 7, p.1, p.2))) := by
  induction entries with
  | nil => rfl
  | cons p ps ih =>
    have hp : ' ' ∉ p.1.data := hh p (List.mem_cons_self p ps)
    have hrest : ∀ q ∈ ps, ' ' ∉ q.1.data :=
      fun q hq => hh q (List.mem_cons_of_mem p hq)
    simp [List.map_cons, parse_commit_lines, hash_line_ne_empty p.1 p.2,
      splitFirst_hash_subject p.1 p.2 hp, ih hrest]

/-- Witness for C10 on two concrete full-hash-and-subject lines. -/
theorem commit_parse_correct_witness :
    parse_commit_lines
        ([("aaaabbbbccccddddeeeeffff0000111122223333", "first subject"),
          ("0123456789abcdef0123456789abcdef01234567", "second: subject")].map
          (fun p => p.1 ++ " " ++ p.2)) =
      Except.ok
        ([("aaaabbbbccccddddeeeeffff0000111122223333", "first subject"),
          ("0123456789abcdef0123456789abcdef01234567", "second: subject")].map
          (fun p => (p.1.take 7, p.1, p.2))) :=
  commit_parse_correct _ (by decide)

/-! ## Claim theorem about history mode of the campaign driver -/

/-- Every git checkout succeeds. -/
def okCheckout : String → Except PyError Unit := fun _ => Except.ok ()

/-- Every `make build` succeeds. -/
def okBuild : String → Except PyError Unit := fun _ => Except.ok ()

/-- Every timed run of every revision succeeds in one second. -/
def oneSecondRuns : String → Nat → Except RunError ℚ := fun _ _ => Except.ok 1

/-- Claim C3: in history mode with the release `v1.2.0` and exactly two
commits after it, with every checkout, build and run succeeding, the claim
expects a three-row report.  Instead, the campaign aborts with
`UnboundLocalError` on the very first commit — `build_path` is only assigned
in the `--pr` branch of `main` (line 225) but is read by the history
branch's `make build` call (line 250) — and the report holds exactly the
header and the single baseline row. -/
theorem history_mode_unbound_build_path :
    mainHistory "2026-10-12 00:00:00" "docker.io/example/workload:latest" [] 5
        oneSecondRuns okCheckout okBuild "v1.2.0"
        [("abcdef1", "abcdef1000000000000000000000000000000000", "first subject"),
         ("abcdef2", "abcdef2000000000000000000000000000000000", "second subject")] =
      (append_to_report "2026-10-12 00:00:00" "docker.io/example/workload:latest" [] ""
          "v1.2.0" { min := 1, max := 1, avg := 1, fullHash := none } true none,
       some PyError.unboundLocal) := by
  have hm : run_performance_test (oneSecondRuns "v1.2.0") 5 =
      Except.ok { min := 1, max := 1, avg := 1, fullHash := none } := by
    simp [run_performance_test, aggLoop, initAggState, statsOf, pyMin, pyMax, pyMean,
      oneSecondRuns, List.range_succ, min_def, max_def]
    norm_num
    rfl
  unfold mainHistory
  rw [hm]
  rfl

end MeasureSyft
